import Mathlib

/-!
Formalisation of the anchor-target component of keras-rcnn
(keras_rcnn/layers/object_detection/_anchor_target.py).

Boxes are rational corner-form 4-tuples, labels are integers
(1 positive, 0 negative, -1 ignore), the IoU matrix is a list of rows.
Tensor primitives imported from keras_rcnn.backend and keras.backend are
not part of the given source file; each is modelled from the
specification's contract for it (doc comments say so).  The random
shuffle used for subsampling is abstracted by an explicit function
parameter; theorems assume it permutes its input.
-/

namespace KerasRCNN

structure Box where
  x1 : ℚ
  y1 : ℚ
  x2 : ℚ
  y2 : ℚ
deriving DecidableEq

/-- Image metadata (height, width, scale). -/
structure Metadata where
  height : ℚ
  width : ℚ
  scale : ℚ
deriving DecidableEq

/-- Area of a corner-form box. -/
def area (b : Box) : ℚ := (b.x2 - b.x1) * (b.y2 - b.y1)

/-- Intersection area of two corner-form boxes (0 when they do not overlap). -/
def interArea (a b : Box) : ℚ :=
  let iw := min a.x2 b.x2 - max a.x1 b.x1
  let ih := min a.y2 b.y2 - max a.y1 b.y1
  if 0 < iw ∧ 0 < ih then iw * ih else 0

/-- Modelled from the spec: IoU(a,g) = area(a∩g) / (area(a)+area(g)-area(a∩g));
0 if the boxes do not intersect or either has non-positive area. -/
def iou (a b : Box) : ℚ :=
  if area a ≤ 0 ∨ area b ≤ 0 then 0
  else
    let i := interArea a b
    if i = 0 then 0 else i / (area a + area b - i)

/-- Modelled from the spec: keras_rcnn.backend.overlap — the N×M IoU matrix
between anchors and ground-truth boxes. -/
def overlap (anchors gt_boxes : List Box) : List (List ℚ) :=
  anchors.map (fun a => gt_boxes.map (fun g => iou a g))

/-- Maximum of a list of rationals (0 on the empty list; only used on
non-empty lists). -/
def maxVal : List ℚ → ℚ
  | [] => 0
  | [x] => x
  | x :: y :: xs => max x (maxVal (y :: xs))

/-- Modelled from the spec: keras.backend.argmax — index of the first
occurrence of the maximum (ties broken by lowest index); 0 on the empty
list. -/
def argmaxIdx : List ℚ → ℕ
  | [] => 0
  | [_] => 0
  | x :: y :: xs => if maxVal (y :: xs) ≤ x then 0 else argmaxIdx (y :: xs) + 1

/-- argmax over axis 1 of the overlap matrix: for each anchor, the index of
the ground-truth box with greatest overlap. -/
def argmax_overlaps_inds (anchors gt_boxes : List Box) : List ℕ :=
  (overlap anchors gt_boxes).map argmaxIdx

/-- For each anchor, the overlap with its argmax-matched ground-truth box
(gather_nd of the matrix at (i, argmax i)). -/
def max_overlaps (anchors gt_boxes : List Box) : List ℚ :=
  (overlap anchors gt_boxes).map (fun row => row.getD (argmaxIdx row) 0)

/-- argmax over axis 0 of the overlap matrix: for each ground-truth box, the
index of the anchor with greatest overlap (ties broken by lowest anchor
index). -/
def gt_argmax_overlaps_inds (anchors gt_boxes : List Box) : List ℕ :=
  (List.range gt_boxes.length).map
    (fun g => argmaxIdx ((overlap anchors gt_boxes).map (fun row => row.getD g 0)))

/-- overlapping(anchors, gt_boxes) from the source: the per-anchor argmax
indices, the per-anchor maximum overlaps and the per-ground-truth argmax
indices. -/
def overlapping (anchors gt_boxes : List Box) : List ℕ × List ℚ × List ℕ :=
  (argmax_overlaps_inds anchors gt_boxes, max_overlaps anchors gt_boxes,
    gt_argmax_overlaps_inds anchors gt_boxes)

/-- A shaped array, used to state the ndim precondition of overlapping. -/
structure NDArray where
  shape : List ℕ
  data : List ℚ

def ndim (t : NDArray) : ℕ := t.shape.length

/-- Rows of a 2-d array read as corner-form boxes. -/
def toBoxes (t : NDArray) : List Box :=
  (List.range (t.shape.getD 0 0)).map (fun i =>
    let c := t.shape.getD 1 0
    ⟨t.data.getD (i * c) 0, t.data.getD (i * c + 1) 0,
     t.data.getD (i * c + 2) 0, t.data.getD (i * c + 3) 0⟩)

/-- overlapping with its two assert statements: computation proceeds only
when both box arrays are 2-dimensional; otherwise an assertion error is
raised at the boundary. -/
def overlapping_checked (anchors gt_boxes : NDArray) :
    Except String (List ℕ × List ℚ × List ℕ) :=
  if ndim anchors = 2 then
    if ndim gt_boxes = 2 then
      Except.ok (overlapping (toBoxes anchors) (toBoxes gt_boxes))
    else Except.error "AssertionError: keras.backend.ndim(gt_boxes) == 2"
  else Except.error "AssertionError: keras.backend.ndim(anchors) == 2"

/-- Modelled from the spec: keras_rcnn.backend.scatter_add_tensor — adds
updates[k] at position indices[k] of ref, sequentially. -/
def scatter_add_tensor (ref : List ℤ) (indices : List ℕ) (updates : List ℤ) :
    List ℤ :=
  (indices.zip updates).foldl (fun acc p => acc.set p.1 (acc.getD p.1 0 + p.2)) ref

/-- Modelled from the spec: keras_rcnn.backend.unique — the distinct values
of a list of indices (the return_index output is unused by the source). -/
def unique (l : List ℕ) : List ℕ := l.dedup

/-- Modelled from the spec: elementwise where(condition, x, y) on
equal-length arrays. -/
def whereList (condition : List Bool) (x y : List ℤ) : List ℤ :=
  (List.range y.length).map
    (fun i => if condition.getD i false then x.getD i 0 else y.getD i 0)

def RPN_FG_FRACTION : ℚ := 0.5

def RPN_BATCHSIZE : ℤ := 256

/-- zeros_like on the per-anchor label column. -/
def zeros_like (anchors : List Box) : List ℤ := anchors.map (fun _ => 0)

/-- ones_like on the per-anchor label column. -/
def ones_like (anchors : List Box) : List ℤ := anchors.map (fun _ => 1)

/-- labels = ones * -1: every anchor starts at ignore. -/
def initial_labels (anchors : List Box) : List ℤ := anchors.map (fun _ => -1)

/-- State of the label array after the conditional first background pass:
when clobber_positives is false, anchors whose max overlap is below the
negative threshold are set to 0; otherwise the pass is skipped. -/
def bg_labels (y_true y_pred : List Box) (neg : ℚ) (clobber_positives : Bool) :
    List ℤ :=
  if clobber_positives then initial_labels y_pred
  else
    whereList ((max_overlaps y_pred y_true).map (fun x => decide (x < neg)))
      (zeros_like y_pred) (initial_labels y_pred)

/-- State of the label array after the force-positive pass: the deduplicated
per-ground-truth argmax anchors receive a scatter-add of (-label + 1). -/
def forced_labels (y_true y_pred : List Box) (neg : ℚ)
    (clobber_positives : Bool) : List ℤ :=
  let labels := bg_labels y_true y_pred neg clobber_positives
  let unique_indices := unique (gt_argmax_overlaps_inds y_pred y_true)
  let inverse_labels := unique_indices.map (fun i => -(labels.getD i 0))
  let updates := unique_indices.map (fun _ => (1 : ℤ))
  scatter_add_tensor labels unique_indices
    (List.zipWith (fun a b => a + b) inverse_labels updates)

/-- State of the label array after the threshold-positive pass: anchors with
max overlap at or above the positive threshold are set to 1. -/
def threshold_labels (y_true y_pred : List Box) (neg pos : ℚ)
    (clobber_positives : Bool) : List ℤ :=
  whereList ((max_overlaps y_pred y_true).map (fun x => decide (pos ≤ x)))
    (ones_like y_pred) (forced_labels y_true y_pred neg clobber_positives)

/-- The raw (pre-balance) label array produced by the assignment passes of
label(): background pass (skipped when clobber_positives), force-positive
pass, threshold-positive pass, then the late background pass when
clobber_positives is true. -/
def raw_label (y_true y_pred : List Box) (neg pos : ℚ)
    (clobber_positives : Bool) : List ℤ :=
  if clobber_positives then
    whereList ((max_overlaps y_pred y_true).map (fun x => decide (x < neg)))
      (zeros_like y_pred)
      (threshold_labels y_true y_pred neg pos clobber_positives)
  else threshold_labels y_true y_pred neg pos clobber_positives

/-- Indices at which the label array holds the value v
(where(equal(labels, v))). -/
def indicesEq (l : List ℤ) (v : ℤ) : List ℕ :=
  (List.range l.length).filter (fun i => decide (l.getD i 0 = v))

/-- Number of positions holding the value v. -/
def countEq (l : List ℤ) (v : ℤ) : ℕ := (indicesEq l v).length

/-- subsample_positive_labels from the source; sh stands for the random
shuffle (keras_rcnn.backend.shuffle), abstracted as a function parameter. -/
def subsample_positive_labels (sh : List ℕ → List ℕ) (labels : List ℤ) :
    List ℤ :=
  let num_fg : ℤ := Int.floor (RPN_FG_FRACTION * (RPN_BATCHSIZE : ℚ))
  let fg_inds := indicesEq labels 1
  let size : ℤ := (fg_inds.length : ℤ) - num_fg
  if size ≤ 0 then labels
  else
    let indices := (sh fg_inds).take size.toNat
    let updates := indices.map (fun _ => (-1 : ℤ))
    let inverse_labels := indices.map (fun i => -(labels.getD i 0))
    scatter_add_tensor labels indices
      (List.zipWith (fun a b => a + b) inverse_labels updates)

/-- subsample_negative_labels from the source; sh abstracts the shuffle. -/
def subsample_negative_labels (sh : List ℕ → List ℕ) (labels : List ℤ) :
    List ℤ :=
  let num_bg : ℤ := RPN_BATCHSIZE - ((indicesEq labels 1).length : ℤ)
  let bg_inds := indicesEq labels 0
  let size : ℤ := (bg_inds.length : ℤ) - num_bg
  if size ≤ 0 then labels
  else
    let indices := (sh bg_inds).take size.toNat
    let updates := indices.map (fun _ => (-1 : ℤ))
    let inverse_labels := indices.map (fun i => -(labels.getD i 0))
    scatter_add_tensor labels indices
      (List.zipWith (fun a b => a + b) inverse_labels updates)

/-- balance from the source: subsample positives, then negatives. -/
def balance (shp shn : List ℕ → List ℕ) (labels : List ℤ) : List ℤ :=
  subsample_negative_labels shn (subsample_positive_labels shp labels)

/-- label(y_true, y_pred, ...) from the source: the per-anchor argmax
indices together with the balanced label array. -/
def label (y_true y_pred : List Box) (neg pos : ℚ) (clobber_positives : Bool)
    (shp shn : List ℕ → List ℕ) : List ℕ × List ℤ :=
  (argmax_overlaps_inds y_pred y_true,
    balance shp shn (raw_label y_true y_pred neg pos clobber_positives))

/-- inside_image from the source: a box is inside the image iff
x1 ≥ -allowed_border, y1 ≥ -allowed_border, x2 < allowed_border + width and
y2 < allowed_border + height. -/
def inside_image (b : Box) (im_info : Metadata) (allowed_border : ℚ) : Bool :=
  decide (-allowed_border ≤ b.x1) && decide (-allowed_border ≤ b.y1) &&
  decide (b.x2 < allowed_border + im_info.width) &&
  decide (b.y2 < allowed_border + im_info.height)

/-- Modelled from the spec: keras_rcnn.backend.bbox_transform — corner-form
anchor and matched ground-truth box to delta form (dx, dy, dw, dh) with
dx=(gt_cx−a_cx)/a_w, dy=(gt_cy−a_cy)/a_h, dw=ln(gt_w/a_w), dh=ln(gt_h/a_h);
ln abstracts the real logarithm so that the encoding stays rational. -/
def bbox_transform (ln : ℚ → ℚ) (a g : Box) : Box :=
  let aw := a.x2 - a.x1
  let ah := a.y2 - a.y1
  let acx := a.x1 + aw / 2
  let acy := a.y1 + ah / 2
  let gw := g.x2 - g.x1
  let gh := g.y2 - g.y1
  let gcx := g.x1 + gw / 2
  let gcy := g.y1 + gh / 2
  ⟨(gcx - acx) / aw, (gcy - acy) / ah, ln (gw / aw), ln (gh / ah)⟩

/-- Configuration of the AnchorTarget layer. -/
structure AnchorTarget where
  allowed_border : ℚ := 0
  clobber_positives : Bool := false
  negative_overlap : ℚ := 0.3
  positive_overlap : ℚ := 0.7
  stride : ℚ := 16

/-- AnchorTarget.call from the source.  The anchor grid generator
(keras_rcnn.backend.shift) is an external collaborator, so the anchor list
it produces is taken as an argument; ln abstracts the logarithm used by the
target encoder and shp/shn the random shuffles of the balance sampler.
Steps: label assignment (with balancing inside), gather of the matched
ground-truth boxes, target encoding, border filtering of the labels, and
the leading singleton batch axis on both outputs. -/
def AnchorTarget.call (self : AnchorTarget) (ln : ℚ → ℚ)
    (shp shn : List ℕ → List ℕ) (anchors gt_boxes : List Box)
    (metadata : Metadata) : List (List ℤ) × List (List Box) :=
  let p := label gt_boxes anchors self.negative_overlap self.positive_overlap
    self.clobber_positives shp shn
  let matched := p.1.map (fun j => gt_boxes.getD j ⟨0, 0, 0, 0⟩)
  let bbox_reg_targets := List.zipWith (bbox_transform ln) anchors matched
  let inds_inside := anchors.map
    (fun a => inside_image a metadata self.allowed_border)
  let final_labels := whereList inds_inside p.2 (p.2.map (fun _ => (-1 : ℤ)))
  ([final_labels], [bbox_reg_targets])

/-! ### Basic list access lemmas -/

lemma getD_mapRange {α : Type} (d : α) (n : ℕ) (f : ℕ → α) (j : ℕ) (h : j < n) :
    (((List.range n).map f).getD j d) = f j := by
  rw [List.getD_eq_getElem _ _ (by simpa using h)]
  simp

lemma getD_map_const {α β : Type} (d : β) (l : List α) (v : β) (j : ℕ)
    (h : j < l.length) : (l.map (fun _ => v)).getD j d = v := by
  rw [List.getD_eq_getElem _ _ (by simpa using h)]
  simp

lemma getD_map_pred (l : List ℚ) (p : ℚ → Bool) (j : ℕ) (h : j < l.length) :
    (l.map p).getD j false = p (l.getD j 0) := by
  rw [List.getD_eq_getElem _ _ (by simpa using h), List.getD_eq_getElem _ _ h]
  simp

lemma getD_set_ne {α : Type} (d : α) (l : List α) (u j : ℕ) (x : α)
    (h : u ≠ j) : (l.set u x).getD j d = l.getD j d := by
  by_cases hj : j < l.length
  · rw [List.getD_eq_getElem _ _ (by simpa using hj),
      List.getD_eq_getElem _ _ hj]
    exact List.getElem_set_ne h _
  · have hle : l.length ≤ j := Nat.le_of_not_lt hj
    rw [List.getD_eq_default _ _ hle, List.getD_eq_default _ _ (by simpa using hle)]

lemma getD_set_self {α : Type} (d : α) (l : List α) (u : ℕ) (x : α)
    (h : u < l.length) : (l.set u x).getD u d = x := by
  rw [List.getD_eq_getElem _ _ (by simpa using h)]
  exact List.getElem_set_self (by simpa using h)

lemma length_whereList (c : List Bool) (x y : List ℤ) :
    (whereList c x y).length = y.length := by
  simp [whereList]

lemma getD_whereList (c : List Bool) (x y : List ℤ) (j : ℕ)
    (h : j < y.length) :
    (whereList c x y).getD j 0 =
      if c.getD j false then x.getD j 0 else y.getD j 0 := by
  simp only [whereList]
  exact getD_mapRange 0 _ _ j h

/-! ### Scatter-add lemmas -/

lemma scatterFold_length (ps : List (ℕ × ℤ)) (ref : List ℤ) :
    (ps.foldl (fun acc p => acc.set p.1 (acc.getD p.1 0 + p.2)) ref).length
      = ref.length := by
  induction ps generalizing ref with
  | nil => rfl
  | cons p ps ih =>
    simp only [List.foldl_cons]
    rw [ih, List.length_set]

lemma scatter_add_tensor_length (ref : List ℤ) (idx : List ℕ)
    (ups : List ℤ) : (scatter_add_tensor ref idx ups).length = ref.length :=
  scatterFold_length _ _

lemma scatterFold_getD_not_mem (ps : List (ℕ × ℤ)) (ref : List ℤ) (j : ℕ)
    (h : ∀ p ∈ ps, p.1 ≠ j) :
    (ps.foldl (fun acc p => acc.set p.1 (acc.getD p.1 0 + p.2)) ref).getD j 0
      = ref.getD j 0 := by
  induction ps generalizing ref with
  | nil => rfl
  | cons p ps ih =>
    simp only [List.foldl_cons]
    rw [ih _ (fun q hq => h q (List.mem_cons_of_mem _ hq))]
    exact getD_set_ne 0 ref p.1 j _ (h p (List.mem_cons_self _ _))

lemma scatterFold_getD_mem (ps : List (ℕ × ℤ)) (ref : List ℤ) (u : ℕ)
    (v : ℤ) (hnd : (ps.map Prod.fst).Nodup) (hm : (u, v) ∈ ps)
    (hu : u < ref.length) :
    (ps.foldl (fun acc p => acc.set p.1 (acc.getD p.1 0 + p.2)) ref).getD u 0
      = ref.getD u 0 + v := by
  induction ps generalizing ref with
  | nil => cases hm
  | cons p ps ih =>
    simp only [List.map_cons, List.nodup_cons] at hnd
    simp only [List.foldl_cons]
    rcases List.mem_cons.mp hm with heq | hmem
    · have hp1 : p.1 = u := by rw [← heq]
      have hnotin : ∀ q ∈ ps, q.1 ≠ u := by
        intro q hq he
        exact hnd.1 (hp1 ▸ he ▸ List.mem_map_of_mem Prod.fst hq)
      rw [scatterFold_getD_not_mem _ _ _ hnotin, hp1]
      have hv : p.2 = v := by rw [← heq]
      rw [hv]
      exact getD_set_self 0 ref u _ hu
    · have hne : p.1 ≠ u := by
        intro he
        exact hnd.1 (he ▸ List.mem_map_of_mem Prod.fst hmem)
      rw [ih _ hnd.2 hmem (by simpa using hu), getD_set_ne 0 ref p.1 u _ hne]

lemma zip_self_map (l : List ℕ) (f : ℕ → ℤ) :
    l.zip (l.map f) = l.map (fun u => (u, f u)) := by
  induction l with
  | nil => rfl
  | cons a l ih => simp [ih]

lemma zipWith_add_map (l : List ℕ) (f g : ℕ → ℤ) :
    List.zipWith (fun a b => a + b) (l.map f) (l.map g)
      = l.map (fun u => f u + g u) := by
  induction l with
  | nil => rfl
  | cons a l ih => simp [ih]

lemma scatter_flip_getD (labels : List ℤ) (idx : List ℕ) (c : ℤ)
    (hnd : idx.Nodup) (hlt : ∀ u ∈ idx, u < labels.length) (j : ℕ) :
    (scatter_add_tensor labels idx
        (List.zipWith (fun a b => a + b)
          (idx.map (fun i => -(labels.getD i 0))) (idx.map (fun _ => c)))).getD j 0
      = if j ∈ idx then c else labels.getD j 0 := by
  unfold scatter_add_tensor
  rw [zipWith_add_map, zip_self_map]
  have hfst : (idx.map (fun u => (u, -(labels.getD u 0) + c))).map Prod.fst
      = idx := by
    rw [List.map_map]
    have hcomp : Prod.fst ∘ (fun u : ℕ => (u, -(labels.getD u 0) + c)) = id :=
      rfl
    rw [hcomp, List.map_id]
  by_cases hj : j ∈ idx
  · have hmem : (j, -(labels.getD j 0) + c)
        ∈ idx.map (fun u => (u, -(labels.getD u 0) + c)) :=
      List.mem_map_of_mem _ hj
    rw [scatterFold_getD_mem _ _ j _ (by rw [hfst]; exact hnd) hmem (hlt j hj)]
    simp [hj]
  · rw [scatterFold_getD_not_mem]
    · simp [hj]
    · intro p hp
      rcases List.mem_map.mp hp with ⟨u, hu, rfl⟩
      exact fun e => hj (e ▸ hu)

lemma scatter_flip_eq (labels : List ℤ) (idx : List ℕ) (c : ℤ)
    (hnd : idx.Nodup) (hlt : ∀ u ∈ idx, u < labels.length) :
    scatter_add_tensor labels idx
        (List.zipWith (fun a b => a + b)
          (idx.map (fun i => -(labels.getD i 0))) (idx.map (fun _ => c)))
      = (List.range labels.length).map
          (fun j => if j ∈ idx then c else labels.getD j 0) := by
  apply List.ext_getElem
  · rw [scatter_add_tensor_length]
    simp
  · intro i h1 h2
    have hiN : i < labels.length := by
      have := scatter_add_tensor_length labels idx
        (List.zipWith (fun a b => a + b)
          (idx.map (fun i => -(labels.getD i 0))) (idx.map (fun _ => c)))
      omega
    rw [← List.getD_eq_getElem _ 0 h1, scatter_flip_getD labels idx c hnd hlt i]
    simp

/-! ### Lengths and pointwise values of the label-assignment stages -/

lemma length_max_overlaps (anchors gt_boxes : List Box) :
    (max_overlaps anchors gt_boxes).length = anchors.length := by
  simp [max_overlaps, overlap]

lemma length_gt_argmax (anchors gt_boxes : List Box) :
    (gt_argmax_overlaps_inds anchors gt_boxes).length = gt_boxes.length := by
  simp [gt_argmax_overlaps_inds]

lemma length_argmax_overlaps (anchors gt_boxes : List Box) :
    (argmax_overlaps_inds anchors gt_boxes).length = anchors.length := by
  simp [argmax_overlaps_inds, overlap]

lemma length_bg_labels (y_true y_pred : List Box) (neg : ℚ) (c : Bool) :
    (bg_labels y_true y_pred neg c).length = y_pred.length := by
  unfold bg_labels
  split
  · simp [initial_labels]
  · rw [length_whereList]
    simp [initial_labels]

lemma length_forced_labels (y_true y_pred : List Box) (neg : ℚ) (c : Bool) :
    (forced_labels y_true y_pred neg c).length = y_pred.length := by
  unfold forced_labels
  rw [scatter_add_tensor_length, length_bg_labels]

lemma length_threshold_labels (y_true y_pred : List Box) (neg pos : ℚ)
    (c : Bool) :
    (threshold_labels y_true y_pred neg pos c).length = y_pred.length := by
  unfold threshold_labels
  rw [length_whereList, length_forced_labels]

lemma length_raw_label (y_true y_pred : List Box) (neg pos : ℚ) (c : Bool) :
    (raw_label y_true y_pred neg pos c).length = y_pred.length := by
  unfold raw_label
  split
  · rw [length_whereList, length_threshold_labels]
  · rw [length_threshold_labels]

lemma length_subsample_positive (sh : List ℕ → List ℕ) (labels : List ℤ) :
    (subsample_positive_labels sh labels).length = labels.length := by
  unfold subsample_positive_labels
  by_cases h : ((indicesEq labels 1).length : ℤ)
      - Int.floor (RPN_FG_FRACTION * (RPN_BATCHSIZE : ℚ)) ≤ 0
  · simp [h]
  · simp [h, scatter_add_tensor_length]

lemma length_subsample_negative (sh : List ℕ → List ℕ) (labels : List ℤ) :
    (subsample_negative_labels sh labels).length = labels.length := by
  unfold subsample_negative_labels
  by_cases h : ((indicesEq labels 0).length : ℤ)
      - (RPN_BATCHSIZE - ((indicesEq labels 1).length : ℤ)) ≤ 0
  · simp [h]
  · simp [h, scatter_add_tensor_length]

lemma length_balance (shp shn : List ℕ → List ℕ) (labels : List ℤ) :
    (balance shp shn labels).length = labels.length := by
  unfold balance
  rw [length_subsample_negative, length_subsample_positive]

lemma argmaxIdx_lt_length (l : List ℚ) (h : l ≠ []) : argmaxIdx l < l.length := by
  induction l with
  | nil => exact absurd rfl h
  | cons x xs ih =>
    cases xs with
    | nil => simp [argmaxIdx]
    | cons y ys =>
      rw [argmaxIdx]
      split
      · simp
      · have := ih (by simp)
        simp only [List.length_cons] at this ⊢
        omega

lemma mem_gt_argmax_lt (anchors gt_boxes : List Box)
    (hN : 0 < anchors.length) :
    ∀ u ∈ gt_argmax_overlaps_inds anchors gt_boxes, u < anchors.length := by
  intro u hu
  rcases List.mem_map.mp hu with ⟨g, _, rfl⟩
  have hcol : ((overlap anchors gt_boxes).map
      (fun row => row.getD g 0)).length = anchors.length := by
    simp [overlap]
  have hne : (overlap anchors gt_boxes).map (fun row => row.getD g 0) ≠ [] := by
    intro he
    rw [he] at hcol
    simp at hcol
    omega
  have := argmaxIdx_lt_length _ hne
  omega

lemma mem_unique_gt_argmax_lt (anchors gt_boxes : List Box)
    (hN : 0 < anchors.length) :
    ∀ u ∈ unique (gt_argmax_overlaps_inds anchors gt_boxes),
      u < anchors.length := by
  intro u hu
  exact mem_gt_argmax_lt anchors gt_boxes hN u (List.mem_dedup.mp hu)

lemma getD_bg_labels (y_true y_pred : List Box) (neg : ℚ) (c : Bool) (j : ℕ)
    (hj : j < y_pred.length) :
    (bg_labels y_true y_pred neg c).getD j 0 =
      if c then -1
      else if (max_overlaps y_pred y_true).getD j 0 < neg then 0 else -1 := by
  unfold bg_labels
  split
  · exact getD_map_const 0 y_pred (-1) j hj
  · rw [getD_whereList _ _ _ j (by simpa [initial_labels] using hj)]
    rw [getD_map_pred _ _ j (by rw [length_max_overlaps]; exact hj)]
    simp only [decide_eq_true_eq]
    split
    · exact getD_map_const 0 y_pred 0 j hj
    · exact getD_map_const 0 y_pred (-1) j hj

lemma bg_labels_mem_range (y_true y_pred : List Box) (neg : ℚ) (c : Bool)
    (j : ℕ) (hj : j < y_pred.length) :
    (bg_labels y_true y_pred neg c).getD j 0 = -1 ∨
      (bg_labels y_true y_pred neg c).getD j 0 = 0 := by
  rw [getD_bg_labels y_true y_pred neg c j hj]
  split
  · left; rfl
  · split
    · right; rfl
    · left; rfl

lemma getD_forced_labels (y_true y_pred : List Box) (neg : ℚ) (c : Bool)
    (hN : 0 < y_pred.length) (j : ℕ) :
    (forced_labels y_true y_pred neg c).getD j 0 =
      if j ∈ unique (gt_argmax_overlaps_inds y_pred y_true) then 1
      else (bg_labels y_true y_pred neg c).getD j 0 := by
  unfold forced_labels
  have h1 : (unique (gt_argmax_overlaps_inds y_pred y_true)).Nodup :=
    List.nodup_dedup _
  have h2 : ∀ u ∈ unique (gt_argmax_overlaps_inds y_pred y_true),
      u < (bg_labels y_true y_pred neg c).length := by
    rw [length_bg_labels]
    exact mem_unique_gt_argmax_lt y_pred y_true hN
  have := scatter_flip_getD (bg_labels y_true y_pred neg c)
    (unique (gt_argmax_overlaps_inds y_pred y_true)) 1 h1 h2 j
  simpa using this

lemma getD_threshold_labels (y_true y_pred : List Box) (neg pos : ℚ)
    (c : Bool) (j : ℕ) (hj : j < y_pred.length) :
    (threshold_labels y_true y_pred neg pos c).getD j 0 =
      if pos ≤ (max_overlaps y_pred y_true).getD j 0 then 1
      else (forced_labels y_true y_pred neg c).getD j 0 := by
  unfold threshold_labels
  rw [getD_whereList _ _ _ j (by rw [length_forced_labels]; exact hj)]
  rw [getD_map_pred _ _ j (by rw [length_max_overlaps]; exact hj)]
  simp only [decide_eq_true_eq]
  split
  · exact getD_map_const 0 y_pred 1 j hj
  · rfl

lemma getD_raw_label (y_true y_pred : List Box) (neg pos : ℚ) (c : Bool)
    (j : ℕ) (hj : j < y_pred.length) :
    (raw_label y_true y_pred neg pos c).getD j 0 =
      if c ∧ (max_overlaps y_pred y_true).getD j 0 < neg then 0
      else (threshold_labels y_true y_pred neg pos c).getD j 0 := by
  unfold raw_label
  by_cases hc : c
  · simp only [hc, if_true, true_and]
    rw [getD_whereList _ _ _ j (by rw [length_threshold_labels]; exact hj)]
    rw [getD_map_pred _ _ j (by rw [length_max_overlaps]; exact hj)]
    simp only [decide_eq_true_eq]
    split
    · exact getD_map_const 0 y_pred 0 j hj
    · rfl
  · simp [hc]

/-! ### Counting positions by value -/

lemma mem_indicesEq (l : List ℤ) (v : ℤ) (j : ℕ) :
    j ∈ indicesEq l v ↔ j < l.length ∧ l.getD j 0 = v := by
  simp [indicesEq, List.mem_filter, List.mem_range]

lemma nodup_indicesEq (l : List ℤ) (v : ℤ) : (indicesEq l v).Nodup :=
  List.Nodup.filter _ (List.nodup_range _)

lemma indicesEq_mapRange (N : ℕ) (f : ℕ → ℤ) (v : ℤ) :
    indicesEq ((List.range N).map f) v
      = (List.range N).filter (fun j => decide (f j = v)) := by
  unfold indicesEq
  simp only [List.length_map, List.length_range]
  refine List.filter_congr ?_
  intro a ha
  rw [getD_mapRange 0 N f a (List.mem_range.mp ha)]

lemma length_filter_split {α : Type} (l : List α) (p : α → Bool) :
    (l.filter p).length + (l.filter (fun a => !(p a))).length = l.length := by
  induction l with
  | nil => rfl
  | cons a l ih =>
    by_cases h : p a <;> simp [List.filter_cons, h, ← ih] <;> omega

lemma length_filter_split_mem (S idx : List ℕ) :
    (S.filter (fun a => decide (a ∈ idx))).length
      + (S.filter (fun a => !(decide (a ∈ idx)))).length = S.length := by
  induction S with
  | nil => rfl
  | cons a S ih =>
    by_cases h : a ∈ idx <;> simp [List.filter_cons, h, ← ih] <;> omega

lemma length_filter_mem (S idx : List ℕ) (hndS : S.Nodup) (hnd : idx.Nodup)
    (hsub : ∀ u ∈ idx, u ∈ S) :
    (S.filter (fun a => decide (a ∈ idx))).length = idx.length := by
  have hperm : (S.filter (fun a => decide (a ∈ idx))).Perm idx := by
    refine (List.perm_ext_iff_of_nodup (hndS.filter _) hnd).mpr ?_
    intro a
    simp only [List.mem_filter, decide_eq_true_eq]
    exact ⟨fun h => h.2, fun h => ⟨hsub a h, h⟩⟩
  exact hperm.length_eq

lemma countEq_flip_other (labels : List ℤ) (idx : List ℕ) (v w : ℤ)
    (hsub : ∀ u ∈ idx, u ∈ indicesEq labels v) (hw : w ≠ -1) (hwv : w ≠ v) :
    countEq ((List.range labels.length).map
      (fun j => if j ∈ idx then -1 else labels.getD j 0)) w
      = countEq labels w := by
  unfold countEq
  rw [indicesEq_mapRange]
  have heq : (List.range labels.length).filter
        (fun j => decide ((if j ∈ idx then -1 else labels.getD j 0) = w))
      = (List.range labels.length).filter
        (fun j => decide (labels.getD j 0 = w)) := by
    refine List.filter_congr ?_
    intro a _
    by_cases h : a ∈ idx
    · have hv2 : labels.getD a 0 = v := ((mem_indicesEq labels v a).mp (hsub a h)).2
      simp only [h, if_true]
      rw [decide_eq_false (fun he => hw he.symm), hv2,
        decide_eq_false (fun he => hwv he.symm)]
    · simp [h]
  rw [heq]
  rfl

lemma countEq_flip_self (labels : List ℤ) (idx : List ℕ) (v : ℤ)
    (hnd : idx.Nodup) (hsub : ∀ u ∈ idx, u ∈ indicesEq labels v)
    (hv : v ≠ -1) :
    countEq ((List.range labels.length).map
      (fun j => if j ∈ idx then -1 else labels.getD j 0)) v
      = countEq labels v - idx.length := by
  unfold countEq
  rw [indicesEq_mapRange]
  have heq : (List.range labels.length).filter
        (fun j => decide ((if j ∈ idx then -1 else labels.getD j 0) = v))
      = ((List.range labels.length).filter
          (fun j => decide (labels.getD j 0 = v))).filter
            (fun j => !(decide (j ∈ idx))) := by
    rw [List.filter_filter]
    refine List.filter_congr ?_
    intro a _
    by_cases h : a ∈ idx
    · have h1 : decide (a ∈ idx) = true := decide_eq_true h
      simp only [h, if_true, h1, Bool.not_true, Bool.false_and]
      exact decide_eq_false (fun he => hv he.symm)
    · simp [h]
  rw [heq]
  have hS : (List.range labels.length).filter
      (fun j => decide (labels.getD j 0 = v)) = indicesEq labels v := rfl
  rw [hS]
  have hsplit := length_filter_split_mem (indicesEq labels v) idx
  have hmem := length_filter_mem (indicesEq labels v) idx
    (nodup_indicesEq labels v) hnd hsub
  omega

/-! ### Behaviour of the two subsampling passes -/

lemma floor_num_fg : Int.floor (RPN_FG_FRACTION * (RPN_BATCHSIZE : ℚ)) = 128 := by
  norm_num [RPN_FG_FRACTION, RPN_BATCHSIZE]

lemma subsample_positive_labels_spec (sh : List ℕ → List ℕ) (labels : List ℤ)
    (hp : (sh (indicesEq labels 1)).Perm (indicesEq labels 1)) :
    countEq (subsample_positive_labels sh labels) 1
        = min (countEq labels 1) 128 ∧
    countEq (subsample_positive_labels sh labels) 0 = countEq labels 0 ∧
    ∀ j : ℕ, (subsample_positive_labels sh labels).getD j 0 = labels.getD j 0 ∨
      ((subsample_positive_labels sh labels).getD j 0 = -1 ∧
        labels.getD j 0 = 1) := by
  have hcnt : countEq labels 1 = (indicesEq labels 1).length := rfl
  by_cases hsz : (((indicesEq labels 1).length : ℤ)
      - Int.floor (RPN_FG_FRACTION * (RPN_BATCHSIZE : ℚ)) ≤ 0)
  · have heq : subsample_positive_labels sh labels = labels := by
      simp [subsample_positive_labels, hsz]
    rw [heq]
    have h128 : countEq labels 1 ≤ 128 := by
      rw [floor_num_fg] at hsz
      omega
    exact ⟨by omega, rfl, fun j => Or.inl rfl⟩
  · have hnodupfg : (indicesEq labels 1).Nodup := nodup_indicesEq labels 1
    set chosen := (sh (indicesEq labels 1)).take
      ((((indicesEq labels 1).length : ℤ)
        - Int.floor (RPN_FG_FRACTION * (RPN_BATCHSIZE : ℚ))).toNat) with hchosen
    have hnodup_ch : chosen.Nodup :=
      ((hp.nodup_iff).mpr hnodupfg).sublist (List.take_sublist _ _)
    have hsub_ch : ∀ u ∈ chosen, u ∈ indicesEq labels 1 := by
      intro u hu
      exact hp.mem_iff.mp (List.take_subset _ _ hu)
    have hlt_ch : ∀ u ∈ chosen, u < labels.length := by
      intro u hu
      exact ((mem_indicesEq labels 1 u).mp (hsub_ch u hu)).1
    have hraw : subsample_positive_labels sh labels
        = scatter_add_tensor labels chosen
          (List.zipWith (fun a b => a + b)
            (chosen.map (fun i => -(labels.getD i 0)))
            (chosen.map (fun _ => (-1 : ℤ)))) := by
      simp [subsample_positive_labels, hsz, hchosen]
    have heq : subsample_positive_labels sh labels
        = (List.range labels.length).map
            (fun j => if j ∈ chosen then -1 else labels.getD j 0) := by
      rw [hraw]
      exact scatter_flip_eq labels chosen (-1) hnodup_ch hlt_ch
    have hlen_ch : chosen.length = (indicesEq labels 1).length - 128 := by
      rw [hchosen, List.length_take, hp.length_eq, floor_num_fg]
      rw [floor_num_fg] at hsz
      omega
    rw [heq]
    have hcount1 := countEq_flip_self labels chosen 1 hnodup_ch hsub_ch
      (by decide)
    have hcount0 := countEq_flip_other labels chosen 1 0 hsub_ch (by decide)
      (by decide)
    refine ⟨?_, hcount0, ?_⟩
    · rw [hcount1, hlen_ch]
      rw [floor_num_fg] at hsz
      omega
    · intro j
      by_cases hj : j < labels.length
      · rw [getD_mapRange 0 _ _ j hj]
        by_cases hc : j ∈ chosen
        · right
          exact ⟨by simp [hc], ((mem_indicesEq labels 1 j).mp (hsub_ch j hc)).2⟩
        · left
          simp [hc]
      · left
        rw [List.getD_eq_default _ _ (by simp; omega),
          List.getD_eq_default _ _ (by omega)]

lemma subsample_negative_labels_spec (sh : List ℕ → List ℕ) (labels : List ℤ)
    (hp : (sh (indicesEq labels 0)).Perm (indicesEq labels 0)) :
    countEq (subsample_negative_labels sh labels) 1 = countEq labels 1 ∧
    countEq (subsample_negative_labels sh labels) 0
        = min (countEq labels 0)
            ((RPN_BATCHSIZE - (countEq labels 1 : ℤ)).toNat) ∧
    ∀ j : ℕ, (subsample_negative_labels sh labels).getD j 0 = labels.getD j 0 ∨
      ((subsample_negative_labels sh labels).getD j 0 = -1 ∧
        labels.getD j 0 = 0) := by
  have hcnt1 : countEq labels 1 = (indicesEq labels 1).length := rfl
  have hcnt0 : countEq labels 0 = (indicesEq labels 0).length := rfl
  have hB : RPN_BATCHSIZE = 256 := rfl
  by_cases hsz : (((indicesEq labels 0).length : ℤ)
      - (RPN_BATCHSIZE - ((indicesEq labels 1).length : ℤ)) ≤ 0)
  · have heq : subsample_negative_labels sh labels = labels := by
      simp [subsample_negative_labels, hsz]
    rw [heq]
    refine ⟨rfl, ?_, fun j => Or.inl rfl⟩
    rw [hB] at hsz ⊢
    omega
  · have hnodupbg : (indicesEq labels 0).Nodup := nodup_indicesEq labels 0
    set chosen := (sh (indicesEq labels 0)).take
      ((((indicesEq labels 0).length : ℤ)
        - (RPN_BATCHSIZE - ((indicesEq labels 1).length : ℤ))).toNat)
      with hchosen
    have hnodup_ch : chosen.Nodup :=
      ((hp.nodup_iff).mpr hnodupbg).sublist (List.take_sublist _ _)
    have hsub_ch : ∀ u ∈ chosen, u ∈ indicesEq labels 0 := by
      intro u hu
      exact hp.mem_iff.mp (List.take_subset _ _ hu)
    have hlt_ch : ∀ u ∈ chosen, u < labels.length := by
      intro u hu
      exact ((mem_indicesEq labels 0 u).mp (hsub_ch u hu)).1
    have hraw : subsample_negative_labels sh labels
        = scatter_add_tensor labels chosen
          (List.zipWith (fun a b => a + b)
            (chosen.map (fun i => -(labels.getD i 0)))
            (chosen.map (fun _ => (-1 : ℤ)))) := by
      simp [subsample_negative_labels, hsz, hchosen]
    have heq : subsample_negative_labels sh labels
        = (List.range labels.length).map
            (fun j => if j ∈ chosen then -1 else labels.getD j 0) := by
      rw [hraw]
      exact scatter_flip_eq labels chosen (-1) hnodup_ch hlt_ch
    have hlen_ch : chosen.length
        = min ((((indicesEq labels 0).length : ℤ)
            - (RPN_BATCHSIZE - ((indicesEq labels 1).length : ℤ))).toNat)
          ((indicesEq labels 0).length) := by
      rw [hchosen, List.length_take, hp.length_eq]
    rw [heq]
    have hcount1 := countEq_flip_other labels chosen 0 1 hsub_ch (by decide)
      (by decide)
    have hcount0 := countEq_flip_self labels chosen 0 hnodup_ch hsub_ch
      (by decide)
    refine ⟨hcount1, ?_, ?_⟩
    · rw [hcount0, hlen_ch]
      rw [hB] at hsz ⊢
      omega
    · intro j
      by_cases hj : j < labels.length
      · rw [getD_mapRange 0 _ _ j hj]
        by_cases hc : j ∈ chosen
        · right
          exact ⟨by simp [hc], ((mem_indicesEq labels 0 j).mp (hsub_ch j hc)).2⟩
        · left
          simp [hc]
      · left
        rw [List.getD_eq_default _ _ (by simp; omega),
          List.getD_eq_default _ _ (by omega)]

/-! ### Value ranges of the label stages -/

lemma mem_values_of_getD {P : ℤ → Prop} (l : List ℤ)
    (h : ∀ j, j < l.length → P (l.getD j 0)) : ∀ x ∈ l, P x := by
  intro x hx
  obtain ⟨j, hj, rfl⟩ := List.mem_iff_getElem.mp hx
  rw [← List.getD_eq_getElem l 0 hj]
  exact h j hj

lemma raw_label_getD_values (y_true y_pred : List Box) (neg pos : ℚ)
    (c : Bool) (j : ℕ) (hj : j < y_pred.length) :
    (raw_label y_true y_pred neg pos c).getD j 0 = -1 ∨
    (raw_label y_true y_pred neg pos c).getD j 0 = 0 ∨
    (raw_label y_true y_pred neg pos c).getD j 0 = 1 := by
  have hN : 0 < y_pred.length := Nat.lt_of_le_of_lt (Nat.zero_le j) hj
  rw [getD_raw_label _ _ _ _ _ j hj]
  split
  · right; left; rfl
  · rw [getD_threshold_labels _ _ _ _ _ j hj]
    split
    · right; right; rfl
    · rw [getD_forced_labels _ _ _ _ hN j]
      split
      · right; right; rfl
      · rcases bg_labels_mem_range y_true y_pred neg c j hj with h | h
        · left; exact h
        · right; left; exact h

/-- C1: with clobber_positives=true the background pass runs after both
positive passes, so an anchor below the negative threshold ends at 0 even
if forced or thresholded positive; with clobber_positives=false the
background pass runs first, so a forced-positive anchor keeps label 1 and a
non-forced sub-positive-threshold anchor keeps the background label 0. -/
theorem claim_C1 (anchors gt_boxes : List Box) (neg pos : ℚ) (i : ℕ)
    (hi : i < anchors.length)
    (hneg : (max_overlaps anchors gt_boxes).getD i 0 < neg) :
    (raw_label gt_boxes anchors neg pos true).getD i 0 = 0 ∧
    (i ∈ unique (gt_argmax_overlaps_inds anchors gt_boxes) →
      (raw_label gt_boxes anchors neg pos false).getD i 0 = 1) ∧
    (i ∉ unique (gt_argmax_overlaps_inds anchors gt_boxes) →
      (max_overlaps anchors gt_boxes).getD i 0 < pos →
      (raw_label gt_boxes anchors neg pos false).getD i 0 = 0) := by
  have hN : 0 < anchors.length := Nat.lt_of_le_of_lt (Nat.zero_le i) hi
  refine ⟨?_, ?_, ?_⟩
  · rw [getD_raw_label _ _ _ _ _ i hi, if_pos ⟨rfl, hneg⟩]
  · intro hmem
    rw [getD_raw_label _ _ _ _ _ i hi, if_neg (by simp),
      getD_threshold_labels _ _ _ _ _ i hi]
    by_cases hpos : pos ≤ (max_overlaps anchors gt_boxes).getD i 0
    · rw [if_pos hpos]
    · rw [if_neg hpos, getD_forced_labels _ _ _ _ hN i, if_pos hmem]
  · intro hmem hpos
    rw [getD_raw_label _ _ _ _ _ i hi, if_neg (by simp),
      getD_threshold_labels _ _ _ _ _ i hi, if_neg (not_le.mpr hpos),
      getD_forced_labels _ _ _ _ hN i, if_neg hmem,
      getD_bg_labels _ _ _ _ i hi, if_neg (by simp), if_pos hneg]

/-- C1 witness: a single anchor disjoint from the single ground-truth box
(max overlap 0 < 3/10). -/
theorem claim_C1_witness :
    ((0 : ℕ) < ([⟨0, 0, 16, 16⟩] : List Box).length ∧
      (max_overlaps [⟨0, 0, 16, 16⟩] [⟨100, 100, 116, 116⟩]).getD 0 0
        < 3 / 10) ∧
    (raw_label [⟨100, 100, 116, 116⟩] [⟨0, 0, 16, 16⟩] (3 / 10) (7 / 10)
        true).getD 0 0 = 0 :=
  ⟨⟨by decide,
    by norm_num [max_overlaps, overlap, iou, area, interArea, argmaxIdx,
      maxVal]⟩,
   (claim_C1 [⟨0, 0, 16, 16⟩] [⟨100, 100, 116, 116⟩] (3 / 10) (7 / 10) 0
     (by decide)
     (by norm_num [max_overlaps, overlap, iou, area, interArea, argmaxIdx,
       maxVal])).1⟩

/-- C2: after the force-positive pass, for every ground-truth box g the
anchor at the per-g argmax index (first maximum over anchors) carries label
1 — regardless of the thresholds — so each ground-truth box has at least
one positively labeled anchor at that point. -/
theorem claim_C2 (anchors gt_boxes : List Box) (neg : ℚ) (c : Bool)
    (hN : 0 < anchors.length) (g : ℕ) (hg : g < gt_boxes.length) :
    (forced_labels gt_boxes anchors neg c).getD
        ((gt_argmax_overlaps_inds anchors gt_boxes).getD g 0) 0 = 1 ∧
    ∃ i : ℕ, i < anchors.length ∧
      (forced_labels gt_boxes anchors neg c).getD i 0 = 1 := by
  have hglen : g < (gt_argmax_overlaps_inds anchors gt_boxes).length := by
    rw [length_gt_argmax]
    exact hg
  have hu_mem : (gt_argmax_overlaps_inds anchors gt_boxes).getD g 0
      ∈ gt_argmax_overlaps_inds anchors gt_boxes := by
    rw [List.getD_eq_getElem _ _ hglen]
    exact List.getElem_mem _
  have hu_unique : (gt_argmax_overlaps_inds anchors gt_boxes).getD g 0
      ∈ unique (gt_argmax_overlaps_inds anchors gt_boxes) :=
    List.mem_dedup.mpr hu_mem
  have h1 : (forced_labels gt_boxes anchors neg c).getD
      ((gt_argmax_overlaps_inds anchors gt_boxes).getD g 0) 0 = 1 := by
    rw [getD_forced_labels _ _ _ _ hN _, if_pos hu_unique]
  exact ⟨h1, ⟨_, mem_gt_argmax_lt anchors gt_boxes hN _ hu_mem, h1⟩⟩

/-- C2 witness: one anchor, one ground-truth box (overlap 1/4). -/
theorem claim_C2_witness :
    ((0 : ℕ) < ([⟨0, 0, 16, 16⟩] : List Box).length ∧
      (0 : ℕ) < ([⟨0, 0, 8, 8⟩] : List Box).length) ∧
    (forced_labels [⟨0, 0, 8, 8⟩] [⟨0, 0, 16, 16⟩] (3 / 10) false).getD
        ((gt_argmax_overlaps_inds [⟨0, 0, 16, 16⟩] [⟨0, 0, 8, 8⟩]).getD 0 0)
        0 = 1 :=
  ⟨⟨by decide, by decide⟩,
   (claim_C2 [⟨0, 0, 16, 16⟩] [⟨0, 0, 8, 8⟩] (3 / 10) false (by decide) 0
     (by decide)).1⟩

/-- C10: the force-positive pass deduplicates the per-ground-truth argmax
indices before the scatter-add, so even when several ground-truth boxes
share the same highest-overlap anchor the update is applied once: that
anchor's label becomes exactly 1 and every label stays in {-1, 0, 1}. -/
theorem claim_C10 (anchors gt_boxes : List Box) (neg : ℚ) (c : Bool)
    (hN : 0 < anchors.length) (g g2 : ℕ) (hg : g < gt_boxes.length)
    (_hg2 : g2 < gt_boxes.length) (_hne : g ≠ g2)
    (_hshare : (gt_argmax_overlaps_inds anchors gt_boxes).getD g 0
      = (gt_argmax_overlaps_inds anchors gt_boxes).getD g2 0) :
    (unique (gt_argmax_overlaps_inds anchors gt_boxes)).Nodup ∧
    (forced_labels gt_boxes anchors neg c).getD
        ((gt_argmax_overlaps_inds anchors gt_boxes).getD g 0) 0 = 1 ∧
    ∀ x ∈ forced_labels gt_boxes anchors neg c, x = -1 ∨ x = 0 ∨ x = 1 := by
  have hglen : g < (gt_argmax_overlaps_inds anchors gt_boxes).length := by
    rw [length_gt_argmax]
    exact hg
  have hu_mem : (gt_argmax_overlaps_inds anchors gt_boxes).getD g 0
      ∈ gt_argmax_overlaps_inds anchors gt_boxes := by
    rw [List.getD_eq_getElem _ _ hglen]
    exact List.getElem_mem _
  have hu_unique : (gt_argmax_overlaps_inds anchors gt_boxes).getD g 0
      ∈ unique (gt_argmax_overlaps_inds anchors gt_boxes) :=
    List.mem_dedup.mpr hu_mem
  refine ⟨List.nodup_dedup _, ?_, ?_⟩
  · rw [getD_forced_labels _ _ _ _ hN _, if_pos hu_unique]
  · refine mem_values_of_getD _ ?_
    intro j hj
    have hjN : j < anchors.length := by
      rw [length_forced_labels] at hj
      exact hj
    rw [getD_forced_labels _ _ _ _ hN j]
    split
    · right; right; rfl
    · rcases bg_labels_mem_range gt_boxes anchors neg c j hjN with h | h
      · left; exact h
      · right; left; exact h

/-- C10 witness: two identical ground-truth boxes share anchor 0 as their
highest-overlap anchor; its label is exactly 1. -/
theorem claim_C10_witness :
    ((0 : ℕ) < ([⟨0, 0, 16, 16⟩] : List Box).length ∧ (0 : ℕ) ≠ 1 ∧
      (gt_argmax_overlaps_inds [⟨0, 0, 16, 16⟩]
          [⟨0, 0, 16, 16⟩, ⟨0, 0, 16, 16⟩]).getD 0 0
        = (gt_argmax_overlaps_inds [⟨0, 0, 16, 16⟩]
            [⟨0, 0, 16, 16⟩, ⟨0, 0, 16, 16⟩]).getD 1 0) ∧
    (forced_labels [⟨0, 0, 16, 16⟩, ⟨0, 0, 16, 16⟩] [⟨0, 0, 16, 16⟩]
        (3 / 10) false).getD
      ((gt_argmax_overlaps_inds [⟨0, 0, 16, 16⟩]
          [⟨0, 0, 16, 16⟩, ⟨0, 0, 16, 16⟩]).getD 0 0) 0 = 1 :=
  ⟨⟨by decide, by decide,
    by norm_num [gt_argmax_overlaps_inds, overlap, iou, area, interArea,
      argmaxIdx, maxVal]⟩,
   (claim_C10 [⟨0, 0, 16, 16⟩] [⟨0, 0, 16, 16⟩, ⟨0, 0, 16, 16⟩] (3 / 10)
     false (by decide) 0 1 (by decide) (by decide) (by decide)
     (by norm_num [gt_argmax_overlaps_inds, overlap, iou, area, interArea,
       argmaxIdx, maxVal])).2.1⟩

lemma subsample_positive_eq_of_le (sh : List ℕ → List ℕ) (labels : List ℤ)
    (h : countEq labels 1 ≤ 128) :
    subsample_positive_labels sh labels = labels := by
  have hsz : (((indicesEq labels 1).length : ℤ)
      - Int.floor (RPN_FG_FRACTION * (RPN_BATCHSIZE : ℚ)) ≤ 0) := by
    rw [floor_num_fg]
    have h2 : (indicesEq labels 1).length ≤ 128 := h
    omega
  simp [subsample_positive_labels, hsz]

lemma subsample_negative_eq_of_le (sh : List ℕ → List ℕ) (labels : List ℤ)
    (h : ((indicesEq labels 0).length : ℤ)
      ≤ RPN_BATCHSIZE - ((indicesEq labels 1).length : ℤ)) :
    subsample_negative_labels sh labels = labels := by
  have hsz : (((indicesEq labels 0).length : ℤ)
      - (RPN_BATCHSIZE - ((indicesEq labels 1).length : ℤ)) ≤ 0) := by
    omega
  simp [subsample_negative_labels, hsz]

/-- C3: the balance sampler subsamples positives first (to at most
floor(F×T) = 128 kept positives), then computes the background quota as
T − (positives remaining after the positive pass); after balancing at most
128 positives remain, positives plus negatives total at most T = 256, and a
class already at or under its quota is left unchanged. -/
theorem claim_C3 (labels : List ℤ) (shp shn : List ℕ → List ℕ)
    (hp : ∀ l, (shp l).Perm l) (hn : ∀ l, (shn l).Perm l) :
    Int.floor (RPN_FG_FRACTION * (RPN_BATCHSIZE : ℚ)) = 128 ∧
    balance shp shn labels
      = subsample_negative_labels shn (subsample_positive_labels shp labels) ∧
    countEq (subsample_positive_labels shp labels) 1
      = min (countEq labels 1) 128 ∧
    (countEq labels 1 ≤ 128 → subsample_positive_labels shp labels = labels) ∧
    countEq (balance shp shn labels) 1 ≤ 128 ∧
    countEq (balance shp shn labels) 1 + countEq (balance shp shn labels) 0
      ≤ 256 ∧
    ((countEq (subsample_positive_labels shp labels) 0 : ℤ)
        ≤ RPN_BATCHSIZE
          - (countEq (subsample_positive_labels shp labels) 1 : ℤ) →
      balance shp shn labels = subsample_positive_labels shp labels) := by
  have s1 := subsample_positive_labels_spec shp labels (hp _)
  have s2 := subsample_negative_labels_spec shn
    (subsample_positive_labels shp labels) (hn _)
  have hb : balance shp shn labels
      = subsample_negative_labels shn (subsample_positive_labels shp labels) :=
    rfl
  refine ⟨floor_num_fg, hb, s1.1, fun h => subsample_positive_eq_of_le shp labels h,
    ?_, ?_, ?_⟩
  · rw [hb, s2.1, s1.1]
    omega
  · have h1 := s2.1
    have h2 := s2.2.1
    have h3 := s1.1
    have hB : RPN_BATCHSIZE = 256 := rfl
    rw [hB] at h2
    rw [hb]
    omega
  · intro h
    rw [hb]
    exact subsample_negative_eq_of_le shn _ h

/-- C3 witness: an under-subscribed label array is left unchanged and
satisfies the quota bounds (shuffles instantiated by the identity). -/
theorem claim_C3_witness :
    (∀ l : List ℕ, (id l).Perm l) ∧
    countEq (balance id id [1, 0, -1]) 1 ≤ 128 ∧
    countEq (balance id id [1, 0, -1]) 1
      + countEq (balance id id [1, 0, -1]) 0 ≤ 256 :=
  ⟨fun l => List.Perm.refl l,
   (claim_C3 [1, 0, -1] id id (fun l => List.Perm.refl l)
     (fun l => List.Perm.refl l)).2.2.2.2.1,
   (claim_C3 [1, 0, -1] id id (fun l => List.Perm.refl l)
     (fun l => List.Perm.refl l)).2.2.2.2.2.1⟩

/-! ### The orchestrator's outputs -/

lemma getD_map_general {α β : Type} (d : β) (dflt : α) (f : α → β)
    (l : List α) (j : ℕ) (h : j < l.length) :
    (l.map f).getD j d = f (l.getD j dflt) := by
  rw [List.getD_eq_getElem _ _ (by simpa using h), List.getD_eq_getElem _ _ h]
  simp

lemma call_fst (cfg : AnchorTarget) (ln : ℚ → ℚ) (shp shn : List ℕ → List ℕ)
    (anchors gt_boxes : List Box) (md : Metadata) :
    (AnchorTarget.call cfg ln shp shn anchors gt_boxes md).1
      = [whereList (anchors.map (fun a => inside_image a md cfg.allowed_border))
          (balance shp shn (raw_label gt_boxes anchors cfg.negative_overlap
            cfg.positive_overlap cfg.clobber_positives))
          ((balance shp shn (raw_label gt_boxes anchors cfg.negative_overlap
            cfg.positive_overlap cfg.clobber_positives)).map
              (fun _ => (-1 : ℤ)))] := rfl

lemma call_label_getD (cfg : AnchorTarget) (ln : ℚ → ℚ)
    (shp shn : List ℕ → List ℕ) (anchors gt_boxes : List Box) (md : Metadata)
    (i : ℕ) (hi : i < anchors.length) :
    ((AnchorTarget.call cfg ln shp shn anchors gt_boxes md).1.getD 0 []).getD
        i 0
      = if inside_image (anchors.getD i ⟨0, 0, 0, 0⟩) md cfg.allowed_border
        then (balance shp shn (raw_label gt_boxes anchors cfg.negative_overlap
          cfg.positive_overlap cfg.clobber_positives)).getD i 0
        else -1 := by
  rw [call_fst]
  have hlen : i < ((balance shp shn (raw_label gt_boxes anchors
      cfg.negative_overlap cfg.positive_overlap cfg.clobber_positives)).map
        (fun _ => (-1 : ℤ))).length := by
    rw [List.length_map, length_balance, length_raw_label]
    exact hi
  have h0 : ([whereList (anchors.map
      (fun a => inside_image a md cfg.allowed_border))
        (balance shp shn (raw_label gt_boxes anchors cfg.negative_overlap
          cfg.positive_overlap cfg.clobber_positives))
        ((balance shp shn (raw_label gt_boxes anchors cfg.negative_overlap
          cfg.positive_overlap cfg.clobber_positives)).map
            (fun _ => (-1 : ℤ)))] : List (List ℤ)).getD 0 []
      = whereList (anchors.map (fun a => inside_image a md cfg.allowed_border))
          (balance shp shn (raw_label gt_boxes anchors cfg.negative_overlap
            cfg.positive_overlap cfg.clobber_positives))
          ((balance shp shn (raw_label gt_boxes anchors cfg.negative_overlap
            cfg.positive_overlap cfg.clobber_positives)).map
              (fun _ => (-1 : ℤ))) := rfl
  rw [h0, getD_whereList _ _ _ i hlen,
    getD_map_general false ⟨0, 0, 0, 0⟩ _ anchors i hi]
  split
  · rfl
  · exact getD_map_const 0 _ (-1) i (by rw [length_balance, length_raw_label]; exact hi)

/-- C4: the border filter marks an anchor inside exactly when
x1 ≥ −allowed_border, y1 ≥ −allowed_border, x2 < allowed_border + width and
y2 < allowed_border + height (strict upper bounds), and every anchor not
inside ends the call with label −1, overriding any prior assignment. -/
theorem claim_C4 :
    (∀ (b : Box) (md : Metadata) (ab : ℚ),
      inside_image b md ab = true ↔
        (-ab ≤ b.x1 ∧ -ab ≤ b.y1 ∧ b.x2 < ab + md.width ∧
          b.y2 < ab + md.height)) ∧
    (∀ (cfg : AnchorTarget) (ln : ℚ → ℚ) (shp shn : List ℕ → List ℕ)
      (anchors gt_boxes : List Box) (md : Metadata) (i : ℕ),
      i < anchors.length →
      inside_image (anchors.getD i ⟨0, 0, 0, 0⟩) md cfg.allowed_border
        = false →
      ((AnchorTarget.call cfg ln shp shn anchors gt_boxes
          md).1.getD 0 []).getD i 0 = -1) := by
  constructor
  · intro b md ab
    simp [inside_image, and_assoc]
  · intro cfg ln shp shn anchors gt_boxes md i hi hout
    rw [call_label_getD cfg ln shp shn anchors gt_boxes md i hi, if_neg]
    simp only [Bool.not_eq_true]
    exact hout

/-- C4 witness: the boundary scenario — allowed_border 0, a 32×32 image and
an anchor with x2 = 32 is excluded (strict bound) and forced to −1. -/
theorem claim_C4_witness :
    ((0 : ℕ) < ([⟨0, 0, 32, 16⟩] : List Box).length ∧
      inside_image (([⟨0, 0, 32, 16⟩] : List Box).getD 0 ⟨0, 0, 0, 0⟩)
        ⟨32, 32, 1⟩ ({} : AnchorTarget).allowed_border = false) ∧
    ((AnchorTarget.call {} id id id [⟨0, 0, 32, 16⟩] [⟨0, 0, 32, 16⟩]
        ⟨32, 32, 1⟩).1.getD 0 []).getD 0 0 = -1 :=
  ⟨⟨by decide, by norm_num [inside_image, AnchorTarget.allowed_border]⟩,
   claim_C4.2 {} id id id [⟨0, 0, 32, 16⟩] [⟨0, 0, 32, 16⟩] ⟨32, 32, 1⟩ 0
     (by decide)
     (by norm_num [inside_image, AnchorTarget.allowed_border])⟩

/-- C7: the regression-target output is computed for every anchor from its
argmax-matched ground-truth box, and it is untouched by the border filter
and the balance sampler: it does not depend on the image metadata, the
configuration or the shuffles. -/
theorem claim_C7 (cfg cfg2 : AnchorTarget) (ln : ℚ → ℚ)
    (shp shn shp2 shn2 : List ℕ → List ℕ) (anchors gt_boxes : List Box)
    (md md2 : Metadata) :
    (AnchorTarget.call cfg ln shp shn anchors gt_boxes md).2
      = [List.zipWith (bbox_transform ln) anchors
          ((argmax_overlaps_inds anchors gt_boxes).map
            (fun j => gt_boxes.getD j ⟨0, 0, 0, 0⟩))] ∧
    (AnchorTarget.call cfg ln shp shn anchors gt_boxes md).2
      = (AnchorTarget.call cfg2 ln shp2 shn2 anchors gt_boxes md2).2 :=
  ⟨rfl, rfl⟩

/-- C9: overlapping checks that both box arrays are 2-dimensional and fails
with an assertion error at the boundary otherwise; on 2-d inputs it
computes the overlap results. -/
theorem claim_C9 (a g : NDArray) :
    ((ndim a ≠ 2 ∨ ndim g ≠ 2) →
      ∃ e, overlapping_checked a g = Except.error e) ∧
    (ndim a = 2 → ndim g = 2 →
      overlapping_checked a g
        = Except.ok (overlapping (toBoxes a) (toBoxes g))) := by
  constructor
  · intro h
    unfold overlapping_checked
    rcases h with h | h
    · rw [if_neg h]
      exact ⟨_, rfl⟩
    · by_cases ha : ndim a = 2
      · rw [if_pos ha, if_neg h]
        exact ⟨_, rfl⟩
      · rw [if_neg ha]
        exact ⟨_, rfl⟩
  · intro ha hg
    unfold overlapping_checked
    rw [if_pos ha, if_pos hg]

/-- C9 witness: a 1-dimensional anchor array is rejected with an error. -/
theorem claim_C9_witness :
    (ndim ⟨[4], [0, 0, 16, 16]⟩ ≠ 2 ∨ ndim ⟨[1, 4], [0, 0, 8, 8]⟩ ≠ 2) ∧
    ∃ e, overlapping_checked ⟨[4], [0, 0, 16, 16]⟩ ⟨[1, 4], [0, 0, 8, 8]⟩
      = Except.error e :=
  ⟨Or.inl (by decide),
   (claim_C9 ⟨[4], [0, 0, 16, 16]⟩ ⟨[1, 4], [0, 0, 8, 8]⟩).1
     (Or.inl (by decide))⟩

/-- C5: the balance sampler runs inside label() on the full anchor set, and
the border filter is applied afterwards to the already-balanced array; as a
consequence the final positive count can be strictly below the balanced
count when a sampled positive anchor lies outside the border (here: two
anchors, the matched one crossing the 32×32 border). -/
theorem claim_C5 :
    (∀ (cfg : AnchorTarget) (ln : ℚ → ℚ) (shp shn : List ℕ → List ℕ)
        (anchors gt_boxes : List Box) (md : Metadata),
      (AnchorTarget.call cfg ln shp shn anchors gt_boxes md).1
        = [whereList
            (anchors.map (fun a => inside_image a md cfg.allowed_border))
            (balance shp shn (raw_label gt_boxes anchors cfg.negative_overlap
              cfg.positive_overlap cfg.clobber_positives))
            ((balance shp shn (raw_label gt_boxes anchors
              cfg.negative_overlap cfg.positive_overlap
              cfg.clobber_positives)).map (fun _ => (-1 : ℤ)))]) ∧
    countEq ((AnchorTarget.call ⟨0, false, 3 / 10, 7 / 10, 16⟩ id id id
        [⟨0, 0, 32, 32⟩, ⟨0, 0, 16, 16⟩] [⟨0, 0, 32, 32⟩]
        ⟨32, 32, 1⟩).1.getD 0 []) 1
      < countEq (balance id id (raw_label [⟨0, 0, 32, 32⟩]
          [⟨0, 0, 32, 32⟩, ⟨0, 0, 16, 16⟩] (3 / 10) (7 / 10) false)) 1 := by
  have hraw : raw_label [⟨0, 0, 32, 32⟩] [⟨0, 0, 32, 32⟩, ⟨0, 0, 16, 16⟩]
      (3 / 10) (7 / 10) false = [1, 0] := by
    norm_num [raw_label, threshold_labels, forced_labels, bg_labels,
      whereList, max_overlaps, gt_argmax_overlaps_inds, overlap, iou, area,
      interArea, argmaxIdx, maxVal, unique, scatter_add_tensor,
      initial_labels, zeros_like, ones_like, List.range_succ, List.set]
  have hbal : balance id id ([1, 0] : List ℤ) = [1, 0] := by
    have h1 : subsample_positive_labels id ([1, 0] : List ℤ) = [1, 0] :=
      subsample_positive_eq_of_le id [1, 0] (by decide)
    have h2 : subsample_negative_labels id ([1, 0] : List ℤ) = [1, 0] :=
      subsample_negative_eq_of_le id [1, 0] (by decide)
    have hb : balance id id ([1, 0] : List ℤ)
        = subsample_negative_labels id (subsample_positive_labels id [1, 0]) :=
      rfl
    rw [hb, h1, h2]
  have hfin : (AnchorTarget.call ⟨0, false, 3 / 10, 7 / 10, 16⟩ id id id
      [⟨0, 0, 32, 32⟩, ⟨0, 0, 16, 16⟩] [⟨0, 0, 32, 32⟩]
      ⟨32, 32, 1⟩).1.getD 0 [] = [-1, 0] := by
    show whereList
        (([⟨0, 0, 32, 32⟩, ⟨0, 0, 16, 16⟩] : List Box).map
          (fun a => inside_image a ⟨32, 32, 1⟩ 0))
        (balance id id (raw_label [⟨0, 0, 32, 32⟩]
          [⟨0, 0, 32, 32⟩, ⟨0, 0, 16, 16⟩] (3 / 10) (7 / 10) false))
        ((balance id id (raw_label [⟨0, 0, 32, 32⟩]
          [⟨0, 0, 32, 32⟩, ⟨0, 0, 16, 16⟩] (3 / 10) (7 / 10)
            false)).map (fun _ => (-1 : ℤ))) = [-1, 0]
    rw [hraw, hbal]
    norm_num [whereList, inside_image, List.range_succ]
  refine ⟨fun cfg ln shp shn anchors gt_boxes md =>
    call_fst cfg ln shp shn anchors gt_boxes md, ?_⟩
  rw [hfin, hraw, hbal]
  decide

lemma balance_getD_cases (shp shn : List ℕ → List ℕ) (labels : List ℤ)
    (hp : ∀ l, (shp l).Perm l) (hn : ∀ l, (shn l).Perm l) (j : ℕ) :
    (balance shp shn labels).getD j 0 = labels.getD j 0 ∨
      (balance shp shn labels).getD j 0 = -1 := by
  have s1 := (subsample_positive_labels_spec shp labels (hp _)).2.2 j
  have s2 := (subsample_negative_labels_spec shn
    (subsample_positive_labels shp labels) (hn _)).2.2 j
  have hb : balance shp shn labels
      = subsample_negative_labels shn (subsample_positive_labels shp labels) :=
    rfl
  rw [hb]
  rcases s2 with h2 | h2
  · rw [h2]
    rcases s1 with h1 | h1
    · left; exact h1
    · right; exact h1.1
  · right; exact h2.1

/-- C6: every output label is in {−1, 0, 1} and the output arrays are
anchor-aligned — after the assignment passes, after balancing and after
border filtering the label array has length N, the orchestrator output
carries a leading singleton batch axis, and the regression-target array has
one (4-component) entry per anchor. -/
theorem claim_C6 (cfg : AnchorTarget) (ln : ℚ → ℚ)
    (shp shn : List ℕ → List ℕ) (anchors gt_boxes : List Box) (md : Metadata)
    (hp : ∀ l, (shp l).Perm l) (hn : ∀ l, (shn l).Perm l) :
    (raw_label gt_boxes anchors cfg.negative_overlap cfg.positive_overlap
        cfg.clobber_positives).length = anchors.length ∧
    (∀ x ∈ raw_label gt_boxes anchors cfg.negative_overlap
        cfg.positive_overlap cfg.clobber_positives,
      x = -1 ∨ x = 0 ∨ x = 1) ∧
    (balance shp shn (raw_label gt_boxes anchors cfg.negative_overlap
        cfg.positive_overlap cfg.clobber_positives)).length
      = anchors.length ∧
    (∀ x ∈ balance shp shn (raw_label gt_boxes anchors cfg.negative_overlap
        cfg.positive_overlap cfg.clobber_positives),
      x = -1 ∨ x = 0 ∨ x = 1) ∧
    (AnchorTarget.call cfg ln shp shn anchors gt_boxes md).1.length = 1 ∧
    (AnchorTarget.call cfg ln shp shn anchors gt_boxes md).2.length = 1 ∧
    ((AnchorTarget.call cfg ln shp shn anchors gt_boxes md).1.getD
        0 []).length = anchors.length ∧
    (∀ x ∈ (AnchorTarget.call cfg ln shp shn anchors gt_boxes md).1.getD
        0 [], x = -1 ∨ x = 0 ∨ x = 1) ∧
    ((AnchorTarget.call cfg ln shp shn anchors gt_boxes md).2.getD
        0 []).length = anchors.length := by
  have hrawlen := length_raw_label gt_boxes anchors cfg.negative_overlap
    cfg.positive_overlap cfg.clobber_positives
  have hballen : (balance shp shn (raw_label gt_boxes anchors
      cfg.negative_overlap cfg.positive_overlap
      cfg.clobber_positives)).length = anchors.length := by
    rw [length_balance, hrawlen]
  refine ⟨hrawlen, ?_, hballen, ?_, rfl, rfl, ?_, ?_, ?_⟩
  · refine mem_values_of_getD _ ?_
    intro j hj
    rw [hrawlen] at hj
    exact raw_label_getD_values gt_boxes anchors cfg.negative_overlap
      cfg.positive_overlap cfg.clobber_positives j hj
  · refine mem_values_of_getD _ ?_
    intro j hj
    rw [hballen] at hj
    rcases balance_getD_cases shp shn _ hp hn j with h | h
    · rw [h]
      exact raw_label_getD_values gt_boxes anchors cfg.negative_overlap
        cfg.positive_overlap cfg.clobber_positives j hj
    · left; exact h
  · show (whereList
        (anchors.map (fun a => inside_image a md cfg.allowed_border))
        (balance shp shn (raw_label gt_boxes anchors cfg.negative_overlap
          cfg.positive_overlap cfg.clobber_positives))
        ((balance shp shn (raw_label gt_boxes anchors cfg.negative_overlap
          cfg.positive_overlap cfg.clobber_positives)).map
            (fun _ => (-1 : ℤ)))).length = anchors.length
    rw [length_whereList, List.length_map, hballen]
  · refine mem_values_of_getD _ ?_
    intro j hj
    have hjN : j < anchors.length := by
      have hlen : ((AnchorTarget.call cfg ln shp shn anchors gt_boxes
          md).1.getD 0 []).length = anchors.length := by
        show (whereList
            (anchors.map (fun a => inside_image a md cfg.allowed_border))
            (balance shp shn (raw_label gt_boxes anchors
              cfg.negative_overlap cfg.positive_overlap
              cfg.clobber_positives))
            ((balance shp shn (raw_label gt_boxes anchors
              cfg.negative_overlap cfg.positive_overlap
              cfg.clobber_positives)).map (fun _ => (-1 : ℤ)))).length
          = anchors.length
        rw [length_whereList, List.length_map, hballen]
      rw [hlen] at hj
      exact hj
    rw [call_label_getD cfg ln shp shn anchors gt_boxes md j hjN]
    split
    · rcases balance_getD_cases shp shn _ hp hn j with h | h
      · rw [h]
        exact raw_label_getD_values gt_boxes anchors cfg.negative_overlap
          cfg.positive_overlap cfg.clobber_positives j hjN
      · left; exact h
    · left; rfl
  · show (List.zipWith (bbox_transform ln) anchors
        ((argmax_overlaps_inds anchors gt_boxes).map
          (fun j => gt_boxes.getD j ⟨0, 0, 0, 0⟩))).length = anchors.length
    rw [List.length_zipWith, List.length_map, length_argmax_overlaps]
    exact Nat.min_self _

/-- C6 witness: a one-anchor, one-ground-truth instance with identity
shuffles. -/
theorem claim_C6_witness :
    (∀ l : List ℕ, (id l).Perm l) ∧
    ((AnchorTarget.call ⟨0, false, 3 / 10, 7 / 10, 16⟩ id id id
        [⟨0, 0, 16, 16⟩] [⟨0, 0, 8, 8⟩] ⟨32, 32, 1⟩).1.getD 0 []).length
      = ([⟨0, 0, 16, 16⟩] : List Box).length :=
  ⟨fun l => List.Perm.refl l,
   (claim_C6 ⟨0, false, 3 / 10, 7 / 10, 16⟩ id id id [⟨0, 0, 16, 16⟩]
     [⟨0, 0, 8, 8⟩] ⟨32, 32, 1⟩ (fun l => List.Perm.refl l)
     (fun l => List.Perm.refl l)).2.2.2.2.2.2.1⟩

lemma max_overlaps_nil_getD (anchors : List Box) (j : ℕ)
    (hj : j < anchors.length) : (max_overlaps anchors []).getD j 0 = 0 := by
  have h : max_overlaps anchors [] = anchors.map (fun _ => (0 : ℚ)) := by
    simp [max_overlaps, overlap, List.map_map, argmaxIdx]
  rw [h]
  exact getD_map_const 0 anchors 0 j hj

lemma forced_labels_nil (anchors : List Box) (neg : ℚ) (c : Bool) :
    forced_labels [] anchors neg c = bg_labels [] anchors neg c := rfl

lemma raw_label_nil_getD (anchors : List Box) (neg pos : ℚ) (c : Bool)
    (hpos : 0 < pos) (j : ℕ) (hj : j < anchors.length) :
    (raw_label [] anchors neg pos c).getD j 0 = -1 ∨
      (raw_label [] anchors neg pos c).getD j 0 = 0 := by
  rw [getD_raw_label _ _ _ _ _ j hj]
  split
  · right; rfl
  · rw [getD_threshold_labels _ _ _ _ _ j hj, max_overlaps_nil_getD anchors j hj,
      if_neg (not_le.mpr hpos), forced_labels_nil]
    exact bg_labels_mem_range [] anchors neg c j hj

/-- C8: with an empty ground-truth set the label assignment still produces
well-formed anchor-aligned outputs; no positive pass fires (for a positive
threshold) and every anchor ends ignorable or background. -/
theorem claim_C8 (anchors : List Box) (neg pos : ℚ) (c : Bool)
    (shp shn : List ℕ → List ℕ) (hp : ∀ l, (shp l).Perm l)
    (hn : ∀ l, (shn l).Perm l) (hpos : 0 < pos) :
    (label [] anchors neg pos c shp shn).1.length = anchors.length ∧
    (label [] anchors neg pos c shp shn).2.length = anchors.length ∧
    ∀ x ∈ (label [] anchors neg pos c shp shn).2, x = -1 ∨ x = 0 := by
  refine ⟨length_argmax_overlaps anchors [], ?_, ?_⟩
  · show (balance shp shn (raw_label [] anchors neg pos c)).length
      = anchors.length
    rw [length_balance, length_raw_label]
  · show ∀ x ∈ balance shp shn (raw_label [] anchors neg pos c),
      x = -1 ∨ x = 0
    refine mem_values_of_getD _ ?_
    intro j hj
    rw [length_balance, length_raw_label] at hj
    rcases balance_getD_cases shp shn _ hp hn j with h | h
    · rw [h]
      exact raw_label_nil_getD anchors neg pos c hpos j hj
    · left; exact h

/-- C8 witness: one anchor, no ground truth, default thresholds. -/
theorem claim_C8_witness :
    ((∀ l : List ℕ, (id l).Perm l) ∧ (0 : ℚ) < 7 / 10) ∧
    (label [] [⟨0, 0, 16, 16⟩] (3 / 10) (7 / 10) false id id).1.length
      = ([⟨0, 0, 16, 16⟩] : List Box).length :=
  ⟨⟨fun l => List.Perm.refl l, by norm_num⟩,
   (claim_C8 [⟨0, 0, 16, 16⟩] (3 / 10) (7 / 10) false id id
     (fun l => List.Perm.refl l) (fun l => List.Perm.refl l)
     (by norm_num)).1⟩

end KerasRCNN
